import Mathlib

/-!
Verification of the DeepGit repository-discovery pipeline.

This file gives a shallow embedding of the pure computational core of the
pipeline (tools/github.py, tools/cross_encoder_reranking.py,
tools/filtering.py, tools/merge_analysis.py, tools/personal_analysis.py)
and proves the behavioural properties stated in the design document.

Python strings are modelled as `List Char` (`len` is `List.length`,
slicing is `List.take`, concatenation is `List.append`); floating point
scores are modelled as exact rationals; the external collaborators
(HTTP responses, the cross-encoder model, the LLM scorer, the float
`math.log10`) are modelled as explicit oracle parameters.
-/

namespace DeepGit

/-- Python strings are sequences of characters. -/
abbrev Chars := List Char

/-- Python `s.lower()` (per-character lowering). -/
def lowerChars (l : Chars) : Chars := l.map Char.toLower

/-- Python `needle in hay` (substring containment test). -/
def containsSub (needle : Chars) : Chars → Bool
  | [] => needle.isEmpty
  | c :: rest => needle.isPrefixOf (c :: rest) || containsSub needle rest

/-- Python `s.strip()`: drop leading and trailing whitespace. -/
def stripChars (l : Chars) : Chars :=
  ((l.dropWhile Char.isWhitespace).reverse.dropWhile Char.isWhitespace).reverse

/-- Python `s.split(sep)` for a single-character separator `sep`. -/
def splitOnChar (sep : Char) : Chars → List Chars
  | [] => [[]]
  | c :: rest =>
    let r := splitOnChar sep rest
    if c = sep then [] :: r
    else
      match r with
      | [] => [[c]]
      | s :: ss => (c :: s) :: ss

/-- Python `s.split(sep)` for a multi-character separator `sep`
(used by `personal_analysis`/`github` as `p.split("target-")`). -/
def splitOnSub (sep : Chars) : Chars → List Chars
  | [] => [[]]
  | c :: rest =>
    if h : sep.isPrefixOf (c :: rest) ∧ sep ≠ [] then
      [] :: splitOnSub sep ((c :: rest).drop sep.length)
    else
      match splitOnSub sep rest with
      | [] => [[c]]
      | s :: ss => (c :: s) :: ss
termination_by l => l.length
decreasing_by
  · simp only [List.length_drop, List.length_cons]
    have hsep : 1 ≤ sep.length := by
      rcases h with ⟨-, hne⟩
      cases sep with
      | nil => exact absurd rfl hne
      | cons a l => simp
    omega
  · simp

/--
One candidate repository record, as assembled by
`fetch_github_repositories` in `tools/github.py` (a Python dict; the
score and activity-metadata keys are attached by later stages, and
`description` is read by the personal-project evaluator with
`repo_data.get('description', '')`, so all keys are modelled as total
fields).
-/
structure Repo where
  title : String
  link : String
  clone_url : String
  combined_doc : Chars
  readme_size : Nat
  arch_size : Nat
  stars : Nat
  full_name : String
  open_issues_count : Nat
  size : Nat
  file_list : List String
  license_name : String
  license_key : String
  description : String
  cross_encoder_score : ℚ
  pr_count : Nat
  branch_count : Nat
  contributors_count : Nat
  commit_count : Nat
deriving DecidableEq

/-! ## tools/github.py — document assembly (`fetch_repo_documentation`) -/

/-- `MAX_README_SIZE` in tools/github.py. -/
def MAX_README_SIZE : Nat := 500

/-- `MAX_ARCH_DOCS_SIZE` in tools/github.py. -/
def MAX_ARCH_DOCS_SIZE : Nat := 500

/-- `MAX_TOTAL_DOC_SIZE` in tools/github.py. -/
def MAX_TOTAL_DOC_SIZE : Nat := 1000

/-- The `"\n\n"` separator used between accumulated documents. -/
def nl2 : Chars := ("\n\n").data

/-- The marker appended when a README or an architecture doc is cut. -/
def truncMarker : Chars := ("\n[... truncated]").data

/-- The marker appended when the final concatenation is cut. -/
def totalTruncMarker : Chars := ("\n[... content truncated to size limit]").data

/-- The placeholder substituted when no documentation was found. -/
def noDocPlaceholder : Chars := ("No documentation available.").data

/--
The accumulation loop of `fetch_repo_documentation` over the fetched
architecture/other markdown documents (tools/github.py lines 96-110):
empty (or failed) fetch results are skipped; a result that keeps
`len(doc_text) + len(res) + 4` within `MAX_ARCH_DOCS_SIZE` is appended
after a `"\n\n"` separator; the first result that does not fit is
truncated to the remaining space when more than 100 bytes remain
(otherwise dropped) and the loop breaks.
-/
def accumArchDocs (doc_text : Chars) : List Chars → Chars
  | [] => doc_text
  | res :: rest =>
    if res = [] then accumArchDocs doc_text rest
    else if doc_text.length + res.length + 4 ≤ MAX_ARCH_DOCS_SIZE then
      accumArchDocs (doc_text ++ nl2 ++ res) rest
    else
      let remaining := MAX_ARCH_DOCS_SIZE - doc_text.length - 4
      if remaining > 100 then doc_text ++ nl2 ++ res.take remaining ++ truncMarker
      else doc_text

/--
README truncation in `fetch_repo_documentation` (tools/github.py lines
116-119): `if readme and len(readme) > MAX_README_SIZE`, cut to
`MAX_README_SIZE` and append the truncation marker.
-/
def truncateReadme (readme : Chars) : Chars :=
  if readme ≠ [] ∧ readme.length > MAX_README_SIZE then
    readme.take MAX_README_SIZE ++ truncMarker
  else readme

/--
Final concatenation in `fetch_repo_documentation` (tools/github.py lines
124-135): prepend a `# README` header when a README exists, cut the
combination to `MAX_TOTAL_DOC_SIZE` (appending the total-size marker),
and substitute the placeholder when the result is blank.
-/
def buildCombinedDoc (readme doc_text : Chars) : Chars :=
  let combined :=
    if readme ≠ [] then ("# README\n").data ++ readme ++ nl2 ++ doc_text
    else doc_text
  let combined2 :=
    if combined.length > MAX_TOTAL_DOC_SIZE then
      combined.take MAX_TOTAL_DOC_SIZE ++ totalTruncMarker
    else combined
  if combined2.any (fun c => ! c.isWhitespace) then combined2 else noDocPlaceholder

/--
`fetch_repo_documentation` (tools/github.py): given the fetched raw
README text and the list of fetched architecture/other markdown
documents (a failed fetch contributes the empty string), return
`(final_doc, readme_size, arch_doc_size)`.
-/
def fetch_repo_documentation (readme_raw : Chars) (arch_results : List Chars) :
    Chars × Nat × Nat :=
  let doc_text := accumArchDocs [] arch_results
  let readme := truncateReadme readme_raw
  (buildCombinedDoc readme doc_text, readme.length, doc_text.length)

/-! ## tools/github.py — search-request construction (`ingest_github_repos_async`) -/

/--
The star filter chosen by `ingest_github_repos_async` (tools/github.py
lines 330-333): `" stars:5..500"` in "Personal Project" mode and
`" stars:>5"` otherwise.
-/
def starFilterOf (project_type : String) : Chars :=
  if project_type = "Personal Project" then (" stars:5..500").data
  else (" stars:>5").data

/--
Splitting a query combo into its parts (tools/github.py line 349):
`[p.strip() for p in combo.split(":") if p.strip()]`.
-/
def parseComboParts (combo : Chars) : List Chars :=
  ((splitOnChar ':' combo).map stripChars).filter (fun p => p ≠ [])

/--
The `target_language` computed by the part loop of
`ingest_github_repos_async` (tools/github.py lines 354-358): the last
part starting with `"target-"` sets it to `p.split("target-")[-1]`.
-/
def targetOf (parts : List Chars) : Option Chars :=
  parts.foldl
    (fun acc p =>
      if ("target-").data.isPrefixOf p then
        some ((splitOnSub ("target-").data p).getLastD [])
      else acc)
    none

/--
The `search_terms` accumulated by the part loop of
`ingest_github_repos_async` (tools/github.py lines 354-358): every part
not starting with `"target-"`, in order.
-/
def searchTermsOf (parts : List Chars) : List Chars :=
  parts.filter (fun p => ! ("target-").data.isPrefixOf p)

/--
The optional `" language:<target>"` suffix appended to a search request
(tools/github.py lines 364-365); Python's `if target_language:` is falsy
both for `None` and for the empty string.
-/
def langFilterOf : Option Chars → Chars
  | some l => if l = [] then [] else (" language:").data ++ l
  | none => []

/--
The search requests one combo contributes (tools/github.py lines
362-366): one `term + star_filter [+ language]` request per search term.
-/
def requestsOfCombo (combo : Chars) (star_filter : Chars) : List Chars :=
  (searchTermsOf (parseComboParts combo)).map
    (fun term => term ++ star_filter ++ langFilterOf (targetOf (parseComboParts combo)))

/--
The full `search_requests` list built by `ingest_github_repos_async`
(tools/github.py lines 346-366), appending each combo's requests in
order.
-/
def build_search_requests (query_combos : List Chars) (star_filter : Chars) :
    List Chars :=
  query_combos.foldl (fun acc combo => acc ++ requestsOfCombo combo star_filter) []

/-! ## tools/github.py — page fetch loop with rate-limit retry
(`fetch_github_repositories`) -/

/--
One HTTP response of the search endpoint, as consumed by
`fetch_github_repositories`: its status code and the repository records
built from its `items` (the per-item documentation fetch is modelled by
the items already carrying their documentation fields).
-/
structure PageResponse where
  status : Nat
  items : List Repo
deriving DecidableEq

/--
The page loop of `fetch_github_repositories` (tools/github.py lines
220-297) over an oracle `resp page attempt` giving the response of the
`attempt`-th request (0 = first try, 1 = the single retry) for `page`:
a first response with status 403/429 is retried once after a fixed
sleep; a (possibly retried) non-200 response breaks out of the loop
when it is 403/429 and otherwise skips just this page; a 200 response
appends its repository records.
-/
def fetchPagesLoop (resp : Nat → Nat → PageResponse) : List Nat → List Repo
  | [] => []
  | page :: rest =>
    let r0 := resp page 0
    let r := if r0.status = 403 ∨ r0.status = 429 then resp page 1 else r0
    if r.status ≠ 200 then
      if r.status = 403 ∨ r.status = 429 then []
      else fetchPagesLoop resp rest
    else r.items ++ fetchPagesLoop resp rest

/--
The page count of `fetch_github_repositories` (tools/github.py lines
212-214): `max_results // per_page`, plus one when there is a remainder.
-/
def numPages (max_results per_page : Nat) : Nat :=
  max_results / per_page + (if max_results % per_page ≠ 0 then 1 else 0)

/--
`fetch_github_repositories` (tools/github.py): run the page loop over
pages `1 .. num_pages`.
-/
def fetch_github_repositories (resp : Nat → Nat → PageResponse)
    (max_results per_page : Nat) : List Repo :=
  fetchPagesLoop resp (List.range' 1 (numPages max_results per_page))

/-! ## tools/github.py — deduplication (`ingest_github_repos_async`) -/

/--
The dedup loop of `ingest_github_repos_async` (tools/github.py lines
384-391) with its `seen` set of full names: a record whose full name was
already seen is dropped whole, otherwise it is kept and its full name
added to `seen`.
-/
def dedupAux (seen : List String) : List Repo → List Repo
  | [] => []
  | r :: rest =>
    if r.full_name ∈ seen then dedupAux seen rest
    else r :: dedupAux (r.full_name :: seen) rest

/-- `unique_repos` as computed by `ingest_github_repos_async`. -/
def dedupByFullName (repos : List Repo) : List Repo := dedupAux [] repos

/-! ## tools/cross_encoder_reranking.py — documentation-quality adjustment
and score postprocessing (`cross_encoder_rerank_func`) -/

/-- `LOW_DOC_THRESHOLD` in tools/cross_encoder_reranking.py. -/
def LOW_DOC_THRESHOLD : Nat := 400

/--
The logarithmic boost of `cross_encoder_rerank_func`
(tools/cross_encoder_reranking.py line 59):
`0.5 * (math.log10(r_size + 1) + math.log10(a_size + 1))`, over an
oracle `log10` standing for the float `math.log10`.
-/
def doc_boost (log10 : ℚ → ℚ) (r_size a_size : Nat) : ℚ :=
  0.5 * (log10 ((r_size : ℚ) + 1) + log10 ((a_size : ℚ) + 1))

/--
The sparse-documentation penalty of `cross_encoder_rerank_func`
(tools/cross_encoder_reranking.py lines 63-67): `5.0` under the nested
condition `r_size < LOW_DOC_THRESHOLD` and then
`a_size < LOW_DOC_THRESHOLD`, else `0.0`.
-/
def doc_penalty (r_size a_size : Nat) : ℚ :=
  if r_size < LOW_DOC_THRESHOLD then
    if a_size < LOW_DOC_THRESHOLD then 5 else 0
  else 0

/--
The documentation-quality adjustment loop of `cross_encoder_rerank_func`
(tools/cross_encoder_reranking.py lines 53-70): every candidate's
cross-encoder score becomes `original_score + boost - penalty`.
-/
def adjust_doc_scores (log10 : ℚ → ℚ) (candidates : List Repo) : List Repo :=
  candidates.map (fun c =>
    { c with cross_encoder_score :=
        c.cross_encoder_score + doc_boost log10 c.readme_size c.arch_size
          - doc_penalty c.readme_size c.arch_size })

/--
The postprocessing step of `cross_encoder_rerank_func`
(tools/cross_encoder_reranking.py lines 76-86): an empty batch yields
`[]`; otherwise, when the minimum score is negative, every candidate's
score is shifted up by `-min_score`.
-/
def postprocess_scores (candidates : List Repo) : List Repo :=
  match (candidates.map (fun c => c.cross_encoder_score)).min? with
  | none => []
  | some min_score =>
    if min_score < 0 then
      candidates.map (fun c =>
        { c with cross_encoder_score := c.cross_encoder_score + (- min_score) })
    else candidates

/-! ## tools/filtering.py — threshold filter (`threshold_filtering`) -/

/--
The slice of the pipeline state read by `threshold_filtering`
(tools/filtering.py): the reranked candidates and the optional hardware
constraint and hardware-filtered list.
-/
structure ThresholdState where
  reranked_candidates : List Repo
  hardware_spec : Option String
  hardware_filtered : Option (List Repo)

/-- Python truthiness of an optional string (`None` and `""` are falsy). -/
def optionStrTruthy : Option String → Bool
  | none => false
  | some s => s ≠ ""

/--
`threshold_filtering` (tools/filtering.py): keep the candidates whose
cross-encoder score is not below the threshold; fall back to the whole
reranked list when that would be empty; then, when a hardware spec is
present and a non-empty hardware-filtered list is available, that list
replaces the result.
-/
def threshold_filtering (st : ThresholdState) (cross_encoder_threshold : ℚ) :
    List Repo :=
  let filtered :=
    st.reranked_candidates.filter
      (fun r => ! decide (r.cross_encoder_score < cross_encoder_threshold))
  let filtered2 := if filtered.isEmpty then st.reranked_candidates else filtered
  if optionStrTruthy st.hardware_spec then
    match st.hardware_filtered with
    | some hw_filtered => if hw_filtered.isEmpty then filtered2 else hw_filtered
    | none => filtered2
  else filtered2

/-- The condition under which `threshold_filtering` substitutes the
hardware-filtered list for the threshold-filtered one. -/
def hwReplaceActive (st : ThresholdState) : Bool :=
  optionStrTruthy st.hardware_spec &&
    (match st.hardware_filtered with
     | some hw_filtered => ! hw_filtered.isEmpty
     | none => false)

/-! ## tools/merge_analysis.py — merge/dedup engine (`merge_analysis`) -/

/--
A Python dict keyed by full name, in insertion order (as used for
`merged` in tools/merge_analysis.py).
-/
abbrev RepoDict := List (String × Repo)

/-- `d[k] = v` on an insertion-ordered dict: overwrite in place when the
key exists, append otherwise. -/
def dictSet (m : RepoDict) (k : String) (v : Repo) : RepoDict :=
  match m with
  | [] => [(k, v)]
  | (k', v') :: rest =>
    if k' = k then (k, v) :: rest else (k', v') :: dictSet rest k v

/-- `k in d` on the dict. -/
def dictHasKey (m : RepoDict) (k : String) : Bool :=
  m.any (fun kv => kv.1 = k)

/--
The allow-list seeding of `merge_analysis` (tools/merge_analysis.py
lines 17-19): `merged[repo["full_name"]] = repo.copy()` for every
strictly filtered candidate.
-/
def seedAllowList (filtered_candidates : List Repo) : RepoDict :=
  filtered_candidates.foldl (fun m repo => dictSet m repo.full_name repo) []

/--
`merge_stream` in `merge_analysis` (tools/merge_analysis.py lines
22-34): in personal (strict) mode a stream record only updates an
already-admitted key and is skipped otherwise; in normal mode it
updates or inserts.  `dict.update` with a full-schema record replaces
every field, so the stored value becomes the incoming record.
-/
def merge_stream (is_personal : Bool) (m : RepoDict) (stream : List Repo) :
    RepoDict :=
  stream.foldl
    (fun m repo =>
      if is_personal then
        if dictHasKey m repo.full_name then dictSet m repo.full_name repo else m
      else dictSet m repo.full_name repo)
    m

/--
`merge_analysis` (tools/merge_analysis.py): seed the allow list in
personal mode, merge the activity and quality streams, and in personal
mode re-filter the values against the allow list.
-/
def merge_analysis (is_personal : Bool)
    (filtered_candidates activity_candidates quality_candidates : List Repo) :
    List Repo :=
  let merged0 : RepoDict := if is_personal then seedAllowList filtered_candidates else []
  let allowed_full_names := filtered_candidates.map (fun r => r.full_name)
  let merged1 := merge_stream is_personal merged0 activity_candidates
  let merged2 := merge_stream is_personal merged1 quality_candidates
  let merged_list := merged2.map (fun kv => kv.2)
  if is_personal then
    merged_list.filter (fun r => allowed_full_names.contains r.full_name)
  else merged_list

/-! ## tools/personal_analysis.py — personal-project evaluator
(`evaluate_personal_project`) -/

/--
The result dict of `evaluate_personal_project`: score, the
"personal gold" flag, the rejection flag and the reason string (empty
when not rejected; the per-signal breakdown is not modelled).
-/
structure EvalResult where
  score : Int
  is_personal_gold : Bool
  rejected : Bool
  reason : Chars
deriving DecidableEq

/-- The template/boilerplate keywords of the fatal check 0.5
(tools/personal_analysis.py line 50). -/
def fatal_keywords : List Chars :=
  [("template").data, ("boilerplate").data, ("starter kit").data,
   ("starter-kit").data, ("scaffold").data]

/-- `(repo_data.get('title','') + " " + repo_data.get('description','')).lower()`
(tools/personal_analysis.py line 51). -/
def titleDesc (repo : Repo) : Chars :=
  lowerChars (repo.title.data ++ (" ").data ++ repo.description.data)

/-- The "corporate process" files of hard signal 8
(tools/personal_analysis.py line 79). -/
def corporate_files : List Chars :=
  [("CODEOWNERS").data, ("SECURITY.md").data, ("CONTRIBUTING.md").data,
   (".github/ISSUE_TEMPLATE").data]

/--
The hard-signal and LLM scoring of the candidates that survive every
fatal check (tools/personal_analysis.py lines 56-122); the soft-signal
LLM call `_analyze_soft_signals_with_llm` is an external collaborator,
modelled by the oracle `llm title readme` returning its integer score
contribution.
-/
def evalSignals (repo : Repo) (llm : String → String → Int)
    (readme_content : String) (file_list : List String) : EvalResult :=
  let s1 : Int :=
    if 1 ≤ repo.contributors_count ∧ repo.contributors_count ≤ 3 then 1 else 0
  let s2 : Int := if 1000 ≤ repo.size ∧ repo.size ≤ 200000 then 1 else 0
  let found_corporate :=
    corporate_files.filter (fun f => file_list.any (fun path => containsSub f path.data))
  let s3 : Int := if found_corporate.length ≤ 1 then 1 else 0
  let workflows :=
    file_list.filter (fun f => containsSub (".github/workflows").data f.data)
  let s4 : Int := if workflows.length ≤ 1 then 1 else 0
  let s5 : Int := if 0 ≤ repo.stars ∧ repo.stars ≤ 50 then 1 else 0
  let score := s1 + s2 + s3 + s4 + s5 + llm repo.title readme_content
  ⟨score, decide (8 ≤ score), false, []⟩

/--
`evaluate_personal_project` (tools/personal_analysis.py): the four fatal
checks short-circuit with score 0, `rejected = True` and a reason
string; survivors are scored by `evalSignals`.
-/
def evaluate_personal_project (repo : Repo) (llm : String → String → Int)
    (readme_content : String) (file_list : List String) : EvalResult :=
  if repo.open_issues_count ≥ 10 then
    ⟨0, false, true,
      ("Too many issues (").data ++ (toString repo.open_issues_count).data ++ (")").data⟩
  else if repo.pr_count ≥ 10 then
    ⟨0, false, true,
      ("Too many PRs (").data ++ (toString repo.pr_count).data ++ (")").data⟩
  else if repo.branch_count > 5 then
    ⟨0, false, true,
      ("Too many branches (").data ++ (toString repo.branch_count).data ++ (")").data⟩
  else if fatal_keywords.any (fun k => containsSub k (titleDesc repo)) then
    ⟨0, false, true, ("Detected as Template/Boilerplate").data⟩
  else evalSignals repo llm readme_content file_list

/-! ## Concrete inputs used in scenario checks -/

/-- A blank candidate record (all fields at their neutral defaults). -/
def baseRepo : Repo :=
  { title := "", link := "", clone_url := "", combined_doc := [],
    readme_size := 0, arch_size := 0, stars := 0, full_name := "",
    open_issues_count := 0, size := 0, file_list := [],
    license_name := "Unknown", license_key := "unknown", description := "",
    cross_encoder_score := 0, pr_count := 0, branch_count := 0,
    contributors_count := 0, commit_count := 0 }

/-- A candidate that passes a threshold of 0. -/
def rC4a : Repo := { baseRepo with full_name := "a/a", cross_encoder_score := 1 }

/-- A different candidate, delivered by the hardware-compatibility
collaborator. -/
def rC4b : Repo := { baseRepo with full_name := "b/b", cross_encoder_score := 2 }

/-- A filter state with a hardware constraint and a hardware-filtered list. -/
def stC4 : ThresholdState := ⟨[rC4a], some "gpu", some [rC4b]⟩

/-- A filter state without any hardware constraint. -/
def stW4 : ThresholdState := ⟨[rC4a], none, none⟩

/-- A candidate returned by the page-2 search response. -/
def rC7 : Repo := { baseRepo with full_name := "c/page2" }

/-- A response oracle: page 1 answers 403 to the first request and to
the retry; page 2 answers 200 with one repository. -/
def c7resp : Nat → Nat → PageResponse := fun page _attempt =>
  if page = 1 then ⟨403, []⟩ else ⟨200, [rC7]⟩

/-- A response oracle whose first attempt is rate-limited and whose
retry succeeds. -/
def w7resp : Nat → Nat → PageResponse := fun _page attempt =>
  if attempt = 0 then ⟨429, []⟩ else ⟨200, [rC7]⟩

/-- The cross-encoder batch of the score-shift scenario: raw adjusted
scores `[-2.0, 1.0, 3.0]`. -/
def cs3 : List Repo :=
  [{ baseRepo with full_name := "s/neg", cross_encoder_score := -2 },
   { baseRepo with full_name := "s/one", cross_encoder_score := 1 },
   { baseRepo with full_name := "s/three", cross_encoder_score := 3 }]

/-- An allow-listed candidate for the merge scenario. -/
def rC5a : Repo := { baseRepo with full_name := "allow/a" }

/-- A candidate appearing only in the activity stream. -/
def rC5b : Repo := { baseRepo with full_name := "other/b" }

/-- The repository of the evaluator scenario: titled
"React Starter Template". -/
def repoC9 : Repo := { baseRepo with title := "React Starter Template" }

/-- An LLM oracle with a non-zero score contribution, to witness that
the fatal keyword check never consults it. -/
def llmC9 : String → String → Int := fun _ _ => 37

/-! ## Helper lemmas -/

/-- `min?` on rational lists is characterised by membership plus lower bound. -/
theorem min?_eq_some_iff_rat {l : List ℚ} {a : ℚ} :
    l.min? = some a ↔ a ∈ l ∧ ∀ b ∈ l, a ≤ b := by
  have : Std.Antisymm ((· : ℚ) ≤ ·) := ⟨fun h h' => le_antisymm h h'⟩
  exact List.min?_eq_some_iff (fun a => le_refl a) (fun a b => min_choice a b)
    (fun a b c => le_min_iff)

/-- The dedup loop keeps, for every full name not yet seen, exactly the first
record carrying it. -/
theorem dedupAux_filter (name : String) (repos : List Repo) :
    ∀ seen : List String,
      (dedupAux seen repos).filter (fun r => r.full_name == name)
        = if name ∈ seen then []
          else (repos.filter (fun r => r.full_name == name)).take 1 := by
  induction repos with
  | nil => intro seen; simp [dedupAux]
  | cons r rest ih =>
    intro seen
    by_cases hseen : r.full_name ∈ seen
    · rw [dedupAux, if_pos hseen, ih seen]
      by_cases hname : name ∈ seen
      · simp [hname]
      · have hne : ¬ (r.full_name == name) = true := by
          simp only [beq_iff_eq]
          intro h; exact hname (h ▸ hseen)
        simp [hname, List.filter_cons, hne]
    · rw [dedupAux, if_neg hseen]
      rw [List.filter_cons, List.filter_cons]
      by_cases heq : r.full_name = name
      · have hbeq : (r.full_name == name) = true := beq_iff_eq.mpr heq
        have hname : name ∉ seen := fun h => hseen (heq ▸ h)
        rw [if_pos hbeq, ih (r.full_name :: seen),
          if_pos (heq ▸ List.mem_cons_self r.full_name seen), if_neg hname]
        simp [hbeq]
      · have hbeq : ¬ (r.full_name == name) = true := by
          simp only [beq_iff_eq]; exact heq
        rw [if_neg hbeq, if_neg hbeq, ih (r.full_name :: seen)]
        have : (name ∈ r.full_name :: seen) ↔ name ∈ seen := by
          simp only [List.mem_cons]
          constructor
          · rintro (h | h)
            · exact absurd h.symm heq
            · exact h
          · exact fun h => Or.inr h
        simp [this]

/-- The dedup loop emits pairwise distinct full names, none of them already
seen. -/
theorem dedupAux_names_nodup (repos : List Repo) :
    ∀ seen : List String,
      ((dedupAux seen repos).map (fun r => r.full_name)).Nodup ∧
      ∀ s ∈ (dedupAux seen repos).map (fun r => r.full_name), s ∉ seen := by
  induction repos with
  | nil => intro seen; simp [dedupAux]
  | cons r rest ih =>
    intro seen
    by_cases hseen : r.full_name ∈ seen
    · rw [dedupAux, if_pos hseen]; exact ih seen
    · rw [dedupAux, if_neg hseen]
      obtain ⟨hnd, hs⟩ := ih (r.full_name :: seen)
      refine ⟨?_, ?_⟩
      · simp only [List.map_cons, List.nodup_cons]
        exact ⟨fun hmem => (hs _ hmem) (List.mem_cons_self _ _), hnd⟩
      · intro s hsmem
        simp only [List.map_cons, List.mem_cons] at hsmem
        rcases hsmem with h | h
        · exact h ▸ hseen
        · exact fun hcon => (hs _ h) (List.mem_cons_of_mem _ hcon)

/-- The dedup loop output is a sublist of its input: kept records are the
original records, in order. -/
theorem dedupAux_sublist (repos : List Repo) :
    ∀ seen : List String, (dedupAux seen repos).Sublist repos := by
  induction repos with
  | nil => intro seen; simp [dedupAux]
  | cons r rest ih =>
    intro seen
    rw [dedupAux]
    split
    · exact (ih seen).cons r
    · exact (ih _).cons₂ r

/-! ## C1 — ingestion dedup invariant -/

/--
C1: for every run of the Ingestion Engine, the deduplicated repository list
contains each full name at most once; on a duplicate key the first-seen
record is kept verbatim (the output is a sublist of the input, and for any
full name the output's records with that name are exactly the first such
input record) and every later record with that name is dropped without
merging any of its fields.
-/
theorem ingest_dedup_spec (repos : List Repo) :
    ((dedupByFullName repos).map (fun r => r.full_name)).Nodup ∧
    (∀ name : String,
      (dedupByFullName repos).filter (fun r => r.full_name == name)
        = (repos.filter (fun r => r.full_name == name)).take 1) ∧
    (dedupByFullName repos).Sublist repos := by
  refine ⟨(dedupAux_names_nodup repos []).1, fun name => ?_, dedupAux_sublist repos []⟩
  simpa using dedupAux_filter name repos []

/-! ## C10 — order-dependent architecture-doc assembly -/

set_option maxRecDepth 40000 in
/--
C10: architecture-doc assembly is order-dependent and stops at the first
fetched document that does not fit in the remaining budget: the outcome of
the loop on `d :: rest` is independent of `rest`, the offending document is
truncated to the remaining space exactly when more than 100 bytes remain
and dropped entirely otherwise, and a subsequently fetched document is
discarded even when it alone would fit under the cap (concrete instance:
a 497-byte first document followed by a 10-byte document that would fit on
its own).
-/
theorem accumArchDocs_stop (acc d : Chars) (rest : List Chars)
    (hne : d ≠ []) (hover : ¬ (acc.length + d.length + 4 ≤ MAX_ARCH_DOCS_SIZE)) :
    accumArchDocs acc (d :: rest) = accumArchDocs acc [d] ∧
    accumArchDocs acc (d :: rest)
      = (if MAX_ARCH_DOCS_SIZE - acc.length - 4 > 100
         then acc ++ nl2 ++ d.take (MAX_ARCH_DOCS_SIZE - acc.length - 4) ++ truncMarker
         else acc) ∧
    (accumArchDocs [] [List.replicate 497 'a', List.replicate 10 'b']
        = accumArchDocs [] [List.replicate 497 'a'] ∧
     ([] : Chars).length + (List.replicate 10 'b').length + 4 ≤ MAX_ARCH_DOCS_SIZE) := by
  refine ⟨?_, ?_, by decide, by decide⟩
  · rw [accumArchDocs, accumArchDocs, if_neg hne, if_neg hne, if_neg hover, if_neg hover]
  · rw [accumArchDocs, if_neg hne, if_neg hover]

set_option maxRecDepth 40000 in
/-- Witness for C10 at the concrete inputs: the loop result on both
documents equals the loop result on the first document alone. -/
theorem accumArchDocs_stop_witness :
    accumArchDocs [] [List.replicate 497 'a', List.replicate 10 'b']
      = accumArchDocs [] [List.replicate 497 'a'] :=
  (accumArchDocs_stop [] (List.replicate 497 'a') [List.replicate 10 'b']
    (by decide) (by decide)).1

/-! ## C2 — documentation size caps -/

/-- The arch-doc loop keeps the text within the cap plus separator/marker
slack, given the invariant holding of the running accumulator. -/
theorem accumArchDocs_length_le (docs : List Chars) :
    ∀ acc : Chars, acc.length + 4 ≤ MAX_ARCH_DOCS_SIZE + 2 →
      (accumArchDocs acc docs).length ≤ MAX_ARCH_DOCS_SIZE + 14 := by
  induction docs with
  | nil =>
    intro acc h
    rw [accumArchDocs]
    simp only [MAX_ARCH_DOCS_SIZE] at *
    omega
  | cons d rest ih =>
    intro acc h
    simp only [accumArchDocs]
    split_ifs with h1 h2 h3
    · exact ih acc h
    · apply ih
      have hn : nl2.length = 2 := rfl
      simp only [List.length_append, hn]
      simp only [MAX_ARCH_DOCS_SIZE] at h2 ⊢
      omega
    · have hm : truncMarker.length = 16 := rfl
      have hn : nl2.length = 2 := rfl
      have hmin := Nat.min_le_left (MAX_ARCH_DOCS_SIZE - acc.length - 4) d.length
      simp only [List.length_append, List.length_take, hm, hn]
      simp only [MAX_ARCH_DOCS_SIZE] at *
      omega
    · simp only [MAX_ARCH_DOCS_SIZE] at *
      omega

/-- The (possibly truncated) README stays within the cap plus the marker. -/
theorem truncateReadme_length_le (readme : Chars) :
    (truncateReadme readme).length ≤ MAX_README_SIZE + truncMarker.length := by
  rw [truncateReadme]
  have hm : truncMarker.length = 16 := rfl
  split_ifs with h
  · simp only [List.length_append, List.length_take, hm]
    have := Nat.min_le_left MAX_README_SIZE readme.length
    simp only [MAX_README_SIZE] at *
    omega
  · rcases not_and_or.mp h with h1 | h2
    · have : readme = [] := not_not.mp h1
      simp [this, MAX_README_SIZE, hm]
    · have : readme.length ≤ MAX_README_SIZE := not_lt.mp h2
      simp only [MAX_README_SIZE, hm] at *
      omega

/-- The final concatenation stays within the cap plus the total marker. -/
theorem buildCombinedDoc_length_le (readme doc_text : Chars) :
    (buildCombinedDoc readme doc_text).length
      ≤ MAX_TOTAL_DOC_SIZE + totalTruncMarker.length := by
  rw [buildCombinedDoc]
  have hm : totalTruncMarker.length = 38 := rfl
  have hp : noDocPlaceholder.length = 27 := rfl
  split_ifs with h1 h2 h3 h4 h5 h6 <;>
    simp only [List.length_append, List.length_take, hm, hp, MAX_TOTAL_DOC_SIZE] at * <;>
    omega

set_option maxRecDepth 40000 in
/--
C2 counterexample: a 501-byte README is truncated to the cap and then the
visible marker is appended, so the resulting README size is 516 bytes,
above `MAX_README_SIZE = 500` — the claimed cap `README size ≤ cap A`
fails on the code.
-/
theorem doc_caps_counterexample :
    ¬ ((fetch_repo_documentation (List.replicate 501 'a') []).2.1 ≤ MAX_README_SIZE) := by
  decide

/--
C2 (amended): for every candidate produced by document assembly, the README
text size is at most cap A plus the 16-byte truncation marker, the combined
architecture/other-docs size is at most cap B plus the 14-byte
separator/marker slack, and the final concatenated documentation size is at
most cap C plus the 38-byte total-size marker; content is cut to the cap
itself, and when README truncation occurs the visible truncation marker is
appended (outside the cap).
-/
theorem fetch_repo_documentation_caps (readme_raw : Chars) (arch_results : List Chars) :
    (fetch_repo_documentation readme_raw arch_results).2.1
        ≤ MAX_README_SIZE + truncMarker.length ∧
    (fetch_repo_documentation readme_raw arch_results).2.2
        ≤ MAX_ARCH_DOCS_SIZE + 14 ∧
    (fetch_repo_documentation readme_raw arch_results).1.length
        ≤ MAX_TOTAL_DOC_SIZE + totalTruncMarker.length ∧
    (truncateReadme readme_raw = readme_raw ∨
      truncMarker.isSuffixOf (truncateReadme readme_raw) = true) := by
  refine ⟨truncateReadme_length_le readme_raw,
    accumArchDocs_length_le arch_results [] (by simp [MAX_ARCH_DOCS_SIZE]),
    buildCombinedDoc_length_le _ _, ?_⟩
  rw [truncateReadme]
  split_ifs with h
  · refine Or.inr ?_
    rw [List.isSuffixOf_iff_suffix]
    exact ⟨readme_raw.take MAX_README_SIZE, rfl⟩
  · exact Or.inl rfl

/-! ## C3 — cross-encoder score shift postprocessing -/

/-- Unfolding of `postprocess_scores` once the batch minimum is known. -/
theorem postprocess_scores_eq (candidates : List Repo) (m : ℚ)
    (hm : (candidates.map (fun c => c.cross_encoder_score)).min? = some m) :
    postprocess_scores candidates
      = if m < 0 then
          candidates.map (fun c =>
            { c with cross_encoder_score := c.cross_encoder_score + (- m) })
        else candidates := by
  rw [postprocess_scores, hm]

/--
C3: for every non-empty batch, every postprocessed score is non-negative;
and when any adjusted score is negative, every candidate's score is shifted
upward by the magnitude of the most negative score (the batch minimum `m`),
the postprocessed batch minimum is exactly zero, and the relative order of
scores at any two positions is preserved.
-/
theorem postprocess_scores_spec (candidates : List Repo) (hne : candidates ≠ []) :
    (∀ q ∈ (postprocess_scores candidates).map (fun c => c.cross_encoder_score), 0 ≤ q) ∧
    ((∃ s ∈ candidates.map (fun c => c.cross_encoder_score), s < 0) →
      ∃ m : ℚ,
        (candidates.map (fun c => c.cross_encoder_score)).min? = some m ∧ m < 0 ∧
        postprocess_scores candidates
          = candidates.map (fun c =>
              { c with cross_encoder_score := c.cross_encoder_score + (- m) }) ∧
        ((postprocess_scores candidates).map (fun c => c.cross_encoder_score)).min?
          = some 0 ∧
        (∀ i j : Nat, i < candidates.length → j < candidates.length →
          ((candidates.map (fun c => c.cross_encoder_score)).getD i 0
              ≤ (candidates.map (fun c => c.cross_encoder_score)).getD j 0 ↔
           ((postprocess_scores candidates).map (fun c => c.cross_encoder_score)).getD i 0
              ≤ ((postprocess_scores candidates).map (fun c => c.cross_encoder_score)).getD j 0))) := by
  obtain ⟨m, hm⟩ : ∃ m, (candidates.map (fun c => c.cross_encoder_score)).min? = some m := by
    cases h : (candidates.map (fun c => c.cross_encoder_score)).min? with
    | none => exact absurd (List.map_eq_nil_iff.mp (List.min?_eq_none_iff.mp h)) hne
    | some m => exact ⟨m, rfl⟩
  obtain ⟨hmem, hle⟩ := min?_eq_some_iff_rat.mp hm
  have hpos : ∀ q ∈ (postprocess_scores candidates).map (fun c => c.cross_encoder_score),
      0 ≤ q := by
    intro q hq
    rw [postprocess_scores_eq candidates m hm] at hq
    by_cases hneg : m < 0
    · rw [if_pos hneg, List.map_map] at hq
      obtain ⟨c, hc, hcq⟩ := List.mem_map.mp hq
      have : m ≤ c.cross_encoder_score := hle _ (List.mem_map_of_mem _ hc)
      rw [← hcq]
      show 0 ≤ c.cross_encoder_score + (- m)
      linarith
    · rw [if_neg hneg] at hq
      have h0m : 0 ≤ m := not_lt.mp hneg
      exact le_trans h0m (hle _ hq)
  refine ⟨hpos, fun hexneg => ?_⟩
  obtain ⟨s, hs, hsneg⟩ := hexneg
  have hmneg : m < 0 := lt_of_le_of_lt (hle _ hs) hsneg
  have hpp : postprocess_scores candidates
      = candidates.map (fun c =>
          { c with cross_encoder_score := c.cross_encoder_score + (- m) }) := by
    rw [postprocess_scores_eq candidates m hm, if_pos hmneg]
  have hscores : (postprocess_scores candidates).map (fun c => c.cross_encoder_score)
      = (candidates.map (fun c => c.cross_encoder_score)).map (fun q => q + (- m)) := by
    rw [hpp, List.map_map, List.map_map]
    rfl
  refine ⟨m, hm, hmneg, hpp, ?_, ?_⟩
  · rw [min?_eq_some_iff_rat]
    constructor
    · rw [hscores]
      refine List.mem_map.mpr ⟨m, hmem, ?_⟩
      ring
    · intro b hb
      exact hpos b hb
  · intro i j hi hj
    have hgd : ∀ k : Nat, k < candidates.length →
        ((postprocess_scores candidates).map (fun c => c.cross_encoder_score)).getD k 0
          = (candidates.map (fun c => c.cross_encoder_score)).getD k 0 + (- m) := by
      intro k hk
      rw [hscores]
      rw [List.getD_eq_getElem?_getD, List.getD_eq_getElem?_getD, List.getElem?_map]
      have hk' : k < (candidates.map (fun c => c.cross_encoder_score)).length := by
        simpa using hk
      rw [List.getElem?_eq_getElem hk']
      rfl
    rw [hgd i hi, hgd j hj]
    constructor
    · intro h; linarith
    · intro h; linarith

/--
Witness for C3: the scenario batch with raw adjusted scores
`[-2.0, 1.0, 3.0]` is shifted to `[0.0, 3.0, 5.0]`.
-/
theorem postprocess_scores_witness :
    (postprocess_scores cs3).map (fun c => c.cross_encoder_score) = [0, 3, 5] := by
  have hm : (cs3.map (fun c => c.cross_encoder_score)).min? = some (-2) := by
    rw [min?_eq_some_iff_rat]
    constructor
    · norm_num [cs3, baseRepo]
    · intro b hb
      norm_num [cs3, baseRepo] at hb
      rcases hb with h | h | h <;> rw [h] <;> norm_num
  have h := postprocess_scores_spec cs3 (by simp [cs3])
  have h2 := h.2 ⟨-2, by norm_num [cs3, baseRepo], by norm_num⟩
  obtain ⟨m, hm', -, hpp, -, -⟩ := h2
  have hm2 : m = -2 := by
    rw [hm] at hm'
    exact (Option.some_inj.mp hm').symm
  rw [hpp, hm2]
  norm_num [cs3, baseRepo]

/-! ## C4 — threshold filter -/

/--
C4 counterexample: with a hardware constraint present and a non-empty
hardware-filtered list available, `threshold_filtering` returns that list
instead of the (non-empty) at-or-above-threshold subset, so the output is
not the threshold subset and the empty-subset exception does not apply.
-/
theorem threshold_filtering_counterexample :
    stC4.reranked_candidates.filter
        (fun r => ! decide (r.cross_encoder_score < (0 : ℚ))) = [rC4a] ∧
    threshold_filtering stC4 0 ≠ [rC4a] := by
  constructor
  · rfl
  · intro h
    have h2 : threshold_filtering stC4 0 = [rC4b] := rfl
    rw [h2] at h
    simp [rC4a, rC4b, baseRepo] at h

/--
C4 (amended): the Threshold Filter returns exactly the subset of its input
whose cross-encoder score is at or above the threshold, except that when
that subset would be empty it returns the entire input list unfiltered —
unless a hardware constraint is present and a non-empty hardware-filtered
list is available, in which case that list replaces the result; in every
case, for a non-empty input the output is non-empty.
-/
theorem threshold_filtering_spec (st : ThresholdState) (thr : ℚ) :
    (st.reranked_candidates ≠ [] → threshold_filtering st thr ≠ []) ∧
    (hwReplaceActive st = false →
      threshold_filtering st thr
        = (if (st.reranked_candidates.filter
                (fun r => ! decide (r.cross_encoder_score < thr))).isEmpty
           then st.reranked_candidates
           else st.reranked_candidates.filter
                (fun r => ! decide (r.cross_encoder_score < thr)))) ∧
    (hwReplaceActive st = true →
      ∃ hw, st.hardware_filtered = some hw ∧ hw ≠ [] ∧
        threshold_filtering st thr = hw) := by
  obtain ⟨cands, spec, hwf⟩ := st
  have hbase : cands ≠ [] →
      (if (cands.filter (fun r => ! decide (r.cross_encoder_score < thr))).isEmpty
       then cands
       else cands.filter (fun r => ! decide (r.cross_encoder_score < thr))) ≠ [] := by
    intro hin
    split_ifs with hemp
    · exact hin
    · intro hcon
      rw [hcon] at hemp
      simp at hemp
  rcases spec with - | s
  · refine ⟨fun hin => ?_, fun _ => ?_, fun hcon => ?_⟩
    · simpa [threshold_filtering, optionStrTruthy] using hbase hin
    · simp [threshold_filtering, optionStrTruthy]
    · simp [hwReplaceActive, optionStrTruthy] at hcon
  · by_cases hs : s = ""
    · refine ⟨fun hin => ?_, fun _ => ?_, fun hcon => ?_⟩
      · simpa [threshold_filtering, optionStrTruthy, hs] using hbase hin
      · simp [threshold_filtering, optionStrTruthy, hs]
      · simp [hwReplaceActive, optionStrTruthy, hs] at hcon
    · rcases hwf with - | hw
      · refine ⟨fun hin => ?_, fun _ => ?_, fun hcon => ?_⟩
        · simpa [threshold_filtering, optionStrTruthy, hs] using hbase hin
        · simp [threshold_filtering, optionStrTruthy, hs]
        · simp [hwReplaceActive, optionStrTruthy, hs] at hcon
      · by_cases hwe : hw = []
        · refine ⟨fun hin => ?_, fun _ => ?_, fun hcon => ?_⟩
          · simpa [threshold_filtering, optionStrTruthy, hs, hwe] using hbase hin
          · simp [threshold_filtering, optionStrTruthy, hs, hwe]
          · simp [hwReplaceActive, optionStrTruthy, hs, hwe] at hcon
        · refine ⟨fun _ => ?_, fun hcon => ?_, fun _ => ⟨hw, rfl, hwe, ?_⟩⟩
          · simp [threshold_filtering, optionStrTruthy, hs, hwe]
          · simp [hwReplaceActive, optionStrTruthy, hs, hwe] at hcon
          · simp [threshold_filtering, optionStrTruthy, hs, hwe]

/-- Witness for C4 at a concrete state without hardware constraint: a
non-empty input yields a non-empty output. -/
theorem threshold_filtering_witness : threshold_filtering stW4 0 ≠ [] :=
  (threshold_filtering_spec stW4 0).1 (by simp [stW4])

/-! ## C5 — allow-list merge mode -/

/-- Writing to an existing key leaves the dict's key sequence unchanged. -/
theorem dictSet_keys_of_mem (k : String) (v : Repo) :
    ∀ m : RepoDict, dictHasKey m k = true →
      (dictSet m k v).map Prod.fst = m.map Prod.fst := by
  intro m
  induction m with
  | nil => intro h; simp [dictHasKey] at h
  | cons kv rest ih =>
    intro h
    obtain ⟨k', v'⟩ := kv
    rw [dictSet]
    by_cases hk : k' = k
    · simp [hk]
    · have hrest : dictHasKey rest k = true := by
        simp only [dictHasKey, List.any_cons, Bool.or_eq_true] at h
        rcases h with h | h
        · exact absurd (of_decide_eq_true h) hk
        · exact h
      simp [hk, ih hrest]

/-- In personal (strict) mode, merging a stream never changes the dict's
key sequence: streams only update already-admitted candidates. -/
theorem merge_stream_personal_keys (stream : List Repo) :
    ∀ m : RepoDict,
      (merge_stream true m stream).map Prod.fst = m.map Prod.fst := by
  induction stream with
  | nil => intro m; rfl
  | cons r rest ih =>
    intro m
    have hstep : merge_stream true m (r :: rest)
        = merge_stream true
            (if dictHasKey m r.full_name then dictSet m r.full_name r else m) rest := by
      rw [merge_stream, merge_stream, List.foldl_cons]
      simp only [eq_self_iff_true, if_true]
    rw [hstep, ih]
    by_cases h : dictHasKey m r.full_name = true
    · rw [if_pos h, dictSet_keys_of_mem r.full_name r m h]
    · rw [if_neg h]

/--
C5: in Personal-Project merge mode, for every combination of allow-list
(`filtered_candidates`), activity, and quality streams, every record of the
merged output carries a full name from the allow-list stream, and the
merged dict's key sequence after both streams equals the seeded allow-list
key sequence — later streams only update admitted candidates and never add
a key, and the final re-filter re-applies the allow-list.
-/
theorem merge_analysis_allowlist_spec
    (filtered_candidates activity_candidates quality_candidates : List Repo) :
    (∀ r ∈ merge_analysis true filtered_candidates activity_candidates quality_candidates,
        r.full_name ∈ filtered_candidates.map (fun q => q.full_name)) ∧
    ((merge_stream true (merge_stream true (seedAllowList filtered_candidates)
          activity_candidates) quality_candidates).map Prod.fst
      = (seedAllowList filtered_candidates).map Prod.fst) := by
  constructor
  · intro r hr
    rw [merge_analysis] at hr
    simp only [eq_self_iff_true, if_true] at hr
    have hpred := (List.mem_filter.mp hr).2
    have : r.full_name ∈ filtered_candidates.map (fun q => q.full_name) := by
      have helem := hpred
      rw [List.contains_iff_exists_mem_beq] at helem
      obtain ⟨a, ha, hab⟩ := helem
      exact (beq_iff_eq.mp hab) ▸ ha
    exact this
  · rw [merge_stream_personal_keys, merge_stream_personal_keys]

/--
Witness for C5 at concrete streams: with allow list `[rC5a]` and an
activity stream `[rC5b]`, every output record's full name is in the
allow-list key set, and the merged key sequence equals the seeded one.
-/
theorem merge_analysis_allowlist_witness :
    rC5a.full_name ∈ [rC5a].map (fun q => q.full_name) ∧
    ((merge_stream true (merge_stream true (seedAllowList [rC5a]) [rC5b]) []).map
        Prod.fst = (seedAllowList [rC5a]).map Prod.fst) := by
  have h := merge_analysis_allowlist_spec [rC5a] [rC5b] []
  refine ⟨h.1 rC5a ?_, h.2⟩
  show rC5a ∈ merge_analysis true [rC5a] [rC5b] []
  have : merge_analysis true [rC5a] [rC5b] [] = [rC5a] := by
    simp [merge_analysis, merge_stream, seedAllowList, dictSet, dictHasKey,
      rC5a, rC5b, baseRepo]
  rw [this]
  exact List.mem_singleton.mpr rfl

/-! ## C6 — one search request per non-target term -/

/-- A left fold that appends each element's contribution is the
concatenation of all contributions. -/
theorem foldl_append_eq_flatMap {α β : Type} (g : α → List β) (l : List α) :
    ∀ init : List β, l.foldl (fun acc x => acc ++ g x) init = init ++ l.flatMap g := by
  induction l with
  | nil => intro init; simp
  | cons x xs ih =>
    intro init
    rw [List.foldl_cons, ih, List.flatMap_cons, List.append_assoc]

/--
C6: the star filter is ` stars:5..500` in "Personal Project" mode and
` stars:>5` in every other mode; the Ingestion Engine's request list is
the concatenation over combos of exactly one request per non-target search
term (of the form `term ++ star filter ++ optional language filter`); and
the scenario combo `kafka:fintech` with star filter ` stars:>5` issues
exactly the two requests `kafka stars:>5` and `fintech stars:>5`, never a
single AND-query.
-/
theorem search_requests_spec :
    starFilterOf "Personal Project" = (" stars:5..500").data ∧
    (∀ pt : String, pt ≠ "Personal Project" → starFilterOf pt = (" stars:>5").data) ∧
    (∀ (query_combos : List Chars) (sf : Chars),
      build_search_requests query_combos sf
        = query_combos.flatMap (fun combo => requestsOfCombo combo sf)) ∧
    (∀ (combo sf : Chars),
      (requestsOfCombo combo sf).length
        = (searchTermsOf (parseComboParts combo)).length) ∧
    build_search_requests [("kafka:fintech").data] ((" stars:>5").data)
      = [("kafka stars:>5").data, ("fintech stars:>5").data] := by
  refine ⟨rfl, fun pt hpt => ?_, fun query_combos sf => ?_, fun combo sf => ?_, ?_⟩
  · rw [starFilterOf, if_neg hpt]
  · rw [build_search_requests]
    simpa using foldl_append_eq_flatMap (fun combo => requestsOfCombo combo sf) query_combos []
  · rw [requestsOfCombo, List.length_map]
  · rfl

/-- Witness for C6: the non-"Personal Project" mode `All` uses the looser
star filter. -/
theorem search_requests_witness : starFilterOf "All" = (" stars:>5").data :=
  search_requests_spec.2.1 "All" (by decide)

/-! ## C7 — rate-limit retry and abort behaviour -/

/--
C7 counterexample: when page 1 fails with 403 on both the first request and
the retry, the loop aborts the remaining pages of the query — page 2, whose
response is 200 with one repository, is never fetched, contradicting the
claim that only the failing page is skipped.
-/
theorem fetch_retry_counterexample :
    fetchPagesLoop c7resp [1, 2] = [] ∧
    (c7resp 2 0).status = 200 ∧ (c7resp 2 0).items = [rC7] ∧
    fetchPagesLoop c7resp [2] = [rC7] := by
  refine ⟨rfl, rfl, rfl, rfl⟩

/--
C7 (amended): when a search-page request receives HTTP 403 or 429, the
Ingestion Engine backs off once with a fixed delay and retries exactly
once (the outcome depends only on the single retry response); if the retry
returns 200 the page's records are kept and the loop continues; if the
retry still fails with 403/429 the loop aborts the remaining pages of the
same search query; any other non-200 retry status skips only that page and
continues with the next page.
-/
theorem fetchPagesLoop_retry (resp : Nat → Nat → PageResponse) (page : Nat)
    (rest : List Nat)
    (h : (resp page 0).status = 403 ∨ (resp page 0).status = 429) :
    fetchPagesLoop resp (page :: rest)
      = (if (resp page 1).status = 200 then
           (resp page 1).items ++ fetchPagesLoop resp rest
         else if (resp page 1).status = 403 ∨ (resp page 1).status = 429 then []
         else fetchPagesLoop resp rest) := by
  rw [fetchPagesLoop]
  simp only [if_pos h]
  by_cases h200 : (resp page 1).status = 200
  · rw [if_pos h200, if_neg (by simp [h200])]
  · rw [if_neg h200, if_pos h200]

/-- Witness for C7 at the concrete oracle whose first attempt is 429 and
whose retry succeeds: the page's record is kept. -/
theorem fetchPagesLoop_retry_witness :
    fetchPagesLoop w7resp [1] = [rC7] := by
  have h := fetchPagesLoop_retry w7resp 1 [] (by decide)
  rw [h]
  rfl

/-! ## C8 — documentation-quality boost and penalty -/

/--
C8: for every candidate and every `log10` collaborator, the adjusted score
is the raw score plus `0.5 * (log10(readme_size+1) + log10(arch_size+1))`
minus a flat penalty of 5 applied exactly when both `readme_size` and
`arch_size` are below the low-doc threshold 400; in the scenario,
`readme_size = 50, arch_size = 30` receives the flat penalty while
`readme_size = 5000, arch_size = 2000` receives only the boost.
-/
theorem adjust_doc_scores_spec (log10 : ℚ → ℚ) (candidates : List Repo) :
    adjust_doc_scores log10 candidates
      = candidates.map (fun c =>
          { c with cross_encoder_score :=
              c.cross_encoder_score
                + (0.5 * (log10 ((c.readme_size : ℚ) + 1) + log10 ((c.arch_size : ℚ) + 1))
                   - (if c.readme_size < LOW_DOC_THRESHOLD ∧ c.arch_size < LOW_DOC_THRESHOLD
                      then (5 : ℚ) else 0)) }) ∧
    doc_penalty 50 30 = 5 ∧ doc_penalty 5000 2000 = 0 ∧
    (50 < LOW_DOC_THRESHOLD ∧ 30 < LOW_DOC_THRESHOLD) ∧ ¬ 5000 < LOW_DOC_THRESHOLD := by
  refine ⟨?_, ?_, ?_, by decide, by decide⟩
  · rw [adjust_doc_scores]
    apply List.map_congr_left
    intro c _
    have hscore :
        c.cross_encoder_score + doc_boost log10 c.readme_size c.arch_size
            - doc_penalty c.readme_size c.arch_size
          = c.cross_encoder_score
              + (0.5 * (log10 ((c.readme_size : ℚ) + 1) + log10 ((c.arch_size : ℚ) + 1))
                 - (if c.readme_size < LOW_DOC_THRESHOLD ∧ c.arch_size < LOW_DOC_THRESHOLD
                    then (5 : ℚ) else 0)) := by
      rw [doc_boost, doc_penalty]
      split_ifs <;> first | ring1 | (exfalso; omega)
    rw [hscore]
  · rw [doc_penalty]
    norm_num [LOW_DOC_THRESHOLD]
  · rw [doc_penalty]
    norm_num [LOW_DOC_THRESHOLD]

/-! ## C9 — template/boilerplate fatal check -/

/-- A non-empty literal prefix keeps a character-list concatenation
non-empty. -/
theorem append3_ne_nil {A B C : Chars} (hA : A ≠ []) : A ++ B ++ C ≠ [] := by
  intro h
  exact hA (List.append_eq_nil.mp (List.append_eq_nil.mp h).1).1

/--
C9: for every repository whose lowered title-plus-description contains a
template/boilerplate keyword, the Personal-Project Evaluator rejects it
with score 0, `rejected = true` and a non-empty reason string, and its
result is computed before any hard-metadata or LLM signal: it is identical
for any two LLM collaborators, README snippets and file lists.
-/
theorem evaluate_keyword_reject (repo : Repo)
    (llm llm2 : String → String → Int) (readme readme2 : String)
    (files files2 : List String)
    (h : fatal_keywords.any (fun k => containsSub k (titleDesc repo)) = true) :
    ((evaluate_personal_project repo llm readme files).score = 0 ∧
     (evaluate_personal_project repo llm readme files).rejected = true ∧
     (evaluate_personal_project repo llm readme files).reason ≠ []) ∧
    evaluate_personal_project repo llm readme files
      = evaluate_personal_project repo llm2 readme2 files2 := by
  rw [evaluate_personal_project, evaluate_personal_project]
  split_ifs with h1 h2 h3
  · exact ⟨⟨rfl, rfl, append3_ne_nil (by decide)⟩, rfl⟩
  · exact ⟨⟨rfl, rfl, append3_ne_nil (by decide)⟩, rfl⟩
  · exact ⟨⟨rfl, rfl, append3_ne_nil (by decide)⟩, rfl⟩
  · exact ⟨⟨rfl, rfl, by decide⟩, rfl⟩

/--
Witness for C9: a repository titled "React Starter Template" is rejected
with score 0 and `rejected = true`, under an LLM oracle that would have
contributed a large positive score.
-/
theorem evaluate_keyword_reject_witness :
    (evaluate_personal_project repoC9 llmC9 "readme" ["src/main.py"]).score = 0 ∧
    (evaluate_personal_project repoC9 llmC9 "readme" ["src/main.py"]).rejected = true := by
  have h := evaluate_keyword_reject repoC9 llmC9 llmC9 "readme" "readme"
    ["src/main.py"] ["src/main.py"] (by decide)
  exact ⟨h.1.1, h.1.2.1⟩
